import Mathlib

/-!
Verification of the image-compressor batch pipeline (`src/main.go`).

The development shallowly embeds the concurrency-free core of the program:

* the partitioner in `main` (chunkSize / share computation, lines 356-362);
* the batch runner `compressImages` (lines 180-228), with the filesystem and
  the per-file transform abstracted as per-item oracles;
* the per-image transform `compressImage` (lines 123-178), with decoding,
  resizing, watermarking and encoding abstracted as oracles;
* the lock-serialized aggregation of worker results, modelled as an arbitrary
  interleaving of each worker's atomic record operations.

Go's `int64` byte counters are modelled as `Int` (the sums in question are far
from overflow); `float64` arithmetic in the resize-factor computation is
modelled by exact rational arithmetic with final truncation, which agrees with
the floating-point computation on the concrete inputs evaluated here.
-/

namespace ImageCompressor

/-! ## Partitioner (main.go lines 356-373)

`chunkSize := (len(filePaths) + numThreads - 1) / numThreads`
`start := i * chunkSize; end := min(start + chunkSize, len)`;
worker `i` is launched on `filePaths[start:end]` iff `start < end`. -/

/-- `chunkSize n len` is Go's `(len + n - 1) / n` (ceiling division for `n > 0`). -/
def chunkSize (n len : Nat) : Nat := (len + n - 1) / n

/-- The end index of worker `i`'s slice: `min (start + chunkSize) len`. -/
def shareEnd (items : List α) (n i : Nat) : Nat :=
  min (i * chunkSize n items.length + chunkSize n items.length) items.length

/-- Worker `i`'s slice `items[start:end]`, as computed by `main`. -/
def share (items : List α) (n i : Nat) : List α :=
  (items.take (shareEnd items n i)).drop (i * chunkSize n items.length)

/-- Whether worker `i` is launched: the guard `start < end` in `main`. -/
def launched (items : List α) (n i : Nat) : Bool :=
  i * chunkSize n items.length < shareEnd items n i

/-- The size-balance condition of the claim: any two shares differ by at most 1. -/
def sharesBalanced (items : List α) (n : Nat) : Prop :=
  ∀ i < n, ∀ j < n, (share items n i).length ≤ (share items n j).length + 1

instance (items : List α) (n : Nat) : Decidable (sharesBalanced items n) := by
  unfold sharesBalanced
  infer_instance

/-! ## Batch runner (compressImages, main.go lines 180-228)

One worker's loop over its slice: for each path, `os.Stat`; on stat error,
append the trimmed path to `failedFiles` under the mutex; on stat success and
`!info.IsDir()` with an accepted extension, run `compressImage`; on its
success, `bar.Add(1)` and, if the output file can be stat'd, add its size to
the worker-local `compressedTotalSize`; on its failure, append the relative
path to `failedFiles` under the mutex.  Paths that stat successfully but are
directories or lack an accepted extension fall through both branches.

The filesystem and the transform are abstracted per item by `ItemEnv`. -/

/-- Result of Go's `os.Stat`: the fields of `os.FileInfo` the code reads. -/
structure FileInfo where
  isDir : Bool
  name : String
  size : Int
  deriving Repr, DecidableEq

/-- Per-item oracle: the item's path together with what the filesystem and
`compressImage` do for this item during the run. -/
structure ItemEnv where
  path : String
  /-- `os.Stat(path)`: `some info` on success, `none` on error. -/
  stat : Option FileInfo
  /-- `compressImage(...)`: `none` on success, `some msg` on error. -/
  compressErr : Option String
  /-- `os.Stat(outputFile)` size after a successful compress, `none` on error. -/
  outStat : Option Int
  deriving Repr, DecidableEq

/-- `strings.HasSuffix` on character lists (Go strings modelled by their
character sequences, so that the kernel can evaluate them). -/
def endsWithChars (l s : List Char) : Bool := (l.reverse.take s.length) == s.reverse

/-- The extension filter of main.go line 198:
`strings.HasSuffix(strings.ToLower(info.Name()), ".jpg") || ... ".png")`
(ASCII case folding, which covers the two extension literals). -/
def hasAcceptedExt (name : String) : Bool :=
  endsWithChars (name.data.map Char.toLower) ".jpg".data ||
    endsWithChars (name.data.map Char.toLower) ".png".data

/-- `strings.TrimPrefix(path, inputDir)`, used to form the relative path. -/
def relativePathOf (path inputDir : String) : String :=
  if inputDir.data.isPrefixOf path.data then String.mk (path.data.drop inputDir.data.length)
  else path

/-- The spec's Outcome, recorded here as ghost instrumentation: a `success`
entry stands for the code's `bar.Add(1)`-plus-size-accumulation event and a
`failure` entry for its `failedFiles` append; it is not a Go variable. -/
inductive Outcome where
  | success (bytesWritten : Int)
  | failure (relativePath : String)
  deriving Repr, DecidableEq

/-- One worker's observable state: the worker-local `compressedTotalSize`, the
(shared) `failedFiles` slice, the progress-bar count, and the ghost list of
recorded Outcomes in order. -/
structure RunState where
  compressedTotalSize : Int
  failedFiles : List String
  progress : Nat
  outcomes : List Outcome
  deriving Repr, DecidableEq

def RunState.initial : RunState := ⟨0, [], 0, []⟩

/-- The body of the inner loop of `compressImages` for one path
(main.go lines 196-222). -/
def processItem (inputDir : String) (s : RunState) (item : ItemEnv) : RunState :=
  match item.stat with
  | some info =>
    if !info.isDir && hasAcceptedExt info.name then
      let relativePath := relativePathOf item.path inputDir
      match item.compressErr with
      | none =>
        let bytes := match item.outStat with
          | some sz => sz
          | none => 0
        { s with progress := s.progress + 1,
                 compressedTotalSize := s.compressedTotalSize + bytes,
                 outcomes := s.outcomes ++ [Outcome.success bytes] }
      | some _ =>
        { s with failedFiles := s.failedFiles ++ [relativePath],
                 outcomes := s.outcomes ++ [Outcome.failure relativePath] }
    else s
  | none =>
    { s with failedFiles := s.failedFiles ++ [relativePathOf item.path inputDir],
             outcomes := s.outcomes ++ [Outcome.failure (relativePathOf item.path inputDir)] }

/-- One sub-batch (`batch := files[i:end]`, inner `for _, path := range batch`). -/
def processBatch (inputDir : String) (s : RunState) (batch : List ItemEnv) : RunState :=
  batch.foldl (processItem inputDir) s

/-- The outer batching loop `for i := 0; i < len(files); i += filesPerBatch`,
with fuel (an upper bound on the number of iterations) to make the recursion
structural; `filesPerBatch ≥ 1` whenever `files` is nonempty, so fuel
`files.length` always suffices. -/
def batchLoop (inputDir : String) (k : Nat) : Nat → List ItemEnv → RunState → RunState
  | 0, _, s => s
  | _ + 1, [], s => s
  | fuel + 1, f :: fs, s =>
      batchLoop inputDir k fuel ((f :: fs).drop k)
        (processBatch inputDir s ((f :: fs).take k))

/-- Processing a share in contiguous sub-batches of size `k`. -/
def processBatched (inputDir : String) (k : Nat) (files : List ItemEnv)
    (s : RunState) : RunState :=
  batchLoop inputDir k files.length files s

/-- Go's `const batchSize = 200`. -/
def goBatchSize : Nat := 200

/-- `compressImages` for one worker: computes `filesPerBatch`, runs the
batched loop from the given state, and returns `(state, nil)` — the function
always returns a `nil` error (main.go line 227). -/
def compressImages (inputDir : String) (files : List ItemEnv) (s : RunState) :
    RunState × Option String :=
  let filesPerBatch := if files.length < goBatchSize then files.length else goBatchSize
  (processBatched inputDir filesPerBatch files s, none)

/-- Whether the code records any outcome for this item: stat errors and items
passing the directory/extension filter do; items that stat successfully but
fail the filter fall through both branches and record nothing. -/
def recordsOutcome (item : ItemEnv) : Bool :=
  match item.stat with
  | some info => !info.isDir && hasAcceptedExt info.name
  | none => true

/-- Whether the code reaches the success branch (`bar.Add(1)`) for this item. -/
def itemSucceeds (item : ItemEnv) : Bool :=
  match item.stat with
  | some info => (!info.isDir && hasAcceptedExt info.name) && item.compressErr.isNone
  | none => false

/-- Whether the code appends this item to `failedFiles`. -/
def itemFails (item : ItemEnv) : Bool := recordsOutcome item && !itemSucceeds item

/-- The bytes this item contributes to `compressedTotalSize`: the output-file
stat size on the success branch when that stat succeeds, otherwise 0. -/
def itemBytes (item : ItemEnv) : Int :=
  if itemSucceeds item then item.outStat.getD 0 else 0

/-- The ghost Outcome entries the code records for this item (zero or one). -/
def itemOutcomes (inputDir : String) (item : ItemEnv) : List Outcome :=
  if itemSucceeds item then [Outcome.success (item.outStat.getD 0)]
  else if itemFails item then [Outcome.failure (relativePathOf item.path inputDir)]
  else []

/-- A small concrete batch of items exercising all branches: a stat error, a
success, a filtered-out `.txt` file, a failing compress, and a success whose
output stat fails. -/
def demoFiles : List ItemEnv :=
  [⟨"/in/gone.jpg", none, none, none⟩,
   ⟨"/in/a.jpg", some ⟨false, "a.jpg", 100⟩, none, some 40⟩,
   ⟨"/in/notes.txt", some ⟨false, "notes.txt", 7⟩, none, none⟩,
   ⟨"/in/bad.png", some ⟨false, "bad.png", 50⟩, some "decode error", none⟩,
   ⟨"/in/b.png", some ⟨false, "b.png", 60⟩, none, none⟩]

/-- An item that stats successfully but has no accepted image extension: the
code records no outcome for it (main.go line 198 guards both branches). -/
def skippedItem : ItemEnv := ⟨"/in/notes.txt", some ⟨false, "notes.txt", 7⟩, none, none⟩

/-! ## Aggregator (C3, main.go lines 212-214 and 367-370)

All cross-worker mutation happens under the single mutex `mu`: each failure is
appended to the shared `failedFiles` inside `compressImages`, and each worker's
byte total is added to the shared `compressedTotalSize` once, after its
`compressImages` call returns.  The mutex serializes these record operations,
so a concurrent execution is modelled by an arbitrary interleaving (`MergeOf`)
of the workers' operation sequences, applied atomically in trace order. -/

/-- One lock-protected record operation on the shared aggregate state. -/
inductive AggOp where
  | recordSuccess (bytes : Int)
  | recordFailure (path : String)
  deriving Repr, DecidableEq

/-- The shared aggregate: `compressedTotalSize` and `failedFiles` of `main`. -/
structure AggState where
  totalBytesWritten : Int
  failedFiles : List String
  deriving Repr, DecidableEq

def AggState.initial : AggState := ⟨0, []⟩

/-- Execute one record operation while holding the lock. -/
def applyOp (s : AggState) : AggOp → AggState
  | AggOp.recordSuccess b => { s with totalBytesWritten := s.totalBytesWritten + b }
  | AggOp.recordFailure p => { s with failedFiles := s.failedFiles ++ [p] }

/-- Execute a serialized trace of record operations. -/
def runTrace (s : AggState) (ops : List AggOp) : AggState := ops.foldl applyOp s

def opBytes : AggOp → Int
  | AggOp.recordSuccess b => b
  | AggOp.recordFailure _ => 0

def opFailures : AggOp → List String
  | AggOp.recordSuccess _ => []
  | AggOp.recordFailure p => [p]

def workerBytes (w : List AggOp) : Int := (w.map opBytes).sum

def workerFailures (w : List AggOp) : List String := (w.map opFailures).flatten

/-- `MergeOf workers trace`: `trace` is an interleaving of the workers'
operation sequences — at each step the lock is granted to some worker `i`,
which performs its next operation.  Worker-internal order is preserved;
cross-worker order is arbitrary. -/
inductive MergeOf : List (List AggOp) → List AggOp → Prop where
  | nil (ws : List (List AggOp)) : (∀ w ∈ ws, w = []) → MergeOf ws []
  | step (ws : List (List AggOp)) (i : Nat) (op : AggOp) (rest trace : List AggOp) :
      ws[i]? = some (op :: rest) → MergeOf (ws.set i rest) trace →
      MergeOf ws (op :: trace)

/-- Two workers' operation sequences and one interleaving of them: worker 1
records 3 bytes then failure "a"; worker 2 records 5 bytes then failure "b";
the lock is granted in the order worker 1, 2, 2, 1. -/
def demoWorkers : List (List AggOp) :=
  [[AggOp.recordSuccess 3, AggOp.recordFailure "a"],
   [AggOp.recordSuccess 5, AggOp.recordFailure "b"]]

def demoTrace : List AggOp :=
  [AggOp.recordSuccess 3, AggOp.recordSuccess 5,
   AggOp.recordFailure "b", AggOp.recordFailure "a"]

/-! ## Transform Unit (compressImage, main.go lines 123-178)

The dimension computation (lines 135-148) is
`scaleFactor := float64(maxPixels) / float64(totalPixels)`,
`newWidth := uint(float64(width) * scaleFactor)` (and likewise for height) —
note: no square root.  `float64` arithmetic is modelled by exact rational
arithmetic, with `uint(...)` truncation as natural-number floor division; on
the concrete inputs evaluated below the floating-point computation is exact,
so the model and the Go code agree there. -/

/-- The output dimensions `compressImage` passes to `resize.Resize`:
`(uint(width*scale), uint(height*scale))` with `scale = maxPixels/totalPixels`
when `totalPixels > maxPixels`, else the original dimensions. -/
def newDims (width height maxPx : Nat) : Nat × Nat :=
  let totalPixels := width * height
  if totalPixels > maxPx then
    (width * maxPx / totalPixels, height * maxPx / totalPixels)
  else (width, height)

/-! ## compressImage pipeline (C7, C8)

`compressImage` opens and decodes the input, conditionally resizes, adds a
watermark only when `watermarkText != ""`, creates the output file, and
encodes in the original format (`jpeg` at quality 80, or `png`; anything else
is "unsupported image format").  Decoding, resizing, watermarking (which
begins by reading and parsing the font file) and encoding are external
collaborators, abstracted as oracle fields of `TransformEnv`. -/

inductive ImgFormat where
  | jpeg
  | png
  | other (name : String)
  deriving Repr, DecidableEq

/-- An abstract decoded image: its bounds plus an opaque content tag. -/
structure Img where
  width : Nat
  height : Nat
  content : Nat
  deriving Repr, DecidableEq

/-- Oracles for one `compressImage` call on one input file. -/
structure TransformEnv where
  /-- Whether `os.Open(inputPath)` succeeds. -/
  openOk : Bool
  /-- `image.Decode(file)`: decoded image and format, `none` = error. -/
  decode : Option (Img × ImgFormat)
  /-- `resize.Resize(newWidth, newHeight, img, Lanczos3)`. -/
  resizeFn : Nat → Nat → Img → Img
  /-- `addWatermark(img, text, fontPath)`: reads and parses the font file,
  draws the text; `none` = error (including font read/parse failure). -/
  watermarkFn : Img → String → String → Option Img
  /-- Whether `os.Create(outputPath)` succeeds. -/
  createOk : Bool
  /-- `jpeg.Encode(outFile, img, Quality: 80)`: bytes written, `none` = error. -/
  encodeJpeg : Img → Option (List Nat)
  /-- `png.Encode(outFile, img)`: bytes written, `none` = error. -/
  encodePng : Img → Option (List Nat)

/-- `compressImage` (main.go lines 123-178) under the oracles of `env`:
returns the encoded output bytes or the error message path taken. -/
def compressImage (env : TransformEnv) (maxPx : Nat)
    (watermarkText fontPath : String) : Except String (List Nat) :=
  if !env.openOk then Except.error "failed to open image"
  else
  match env.decode with
  | none => Except.error "failed to decode image"
  | some (img, format) =>
    let totalPixels := img.width * img.height
    let newImg :=
      if totalPixels > maxPx then
        env.resizeFn (img.width * maxPx / totalPixels)
          (img.height * maxPx / totalPixels) img
      else img
    let afterWatermark : Except String Img :=
      if watermarkText ≠ "" then
        match env.watermarkFn newImg watermarkText fontPath with
        | some w => Except.ok w
        | none => Except.error "failed to add watermark"
      else Except.ok newImg
    match afterWatermark with
    | Except.error e => Except.error e
    | Except.ok outImg =>
      if env.createOk then
        match format with
        | ImgFormat.jpeg =>
          match env.encodeJpeg outImg with
          | some bytes => Except.ok bytes
          | none => Except.error "failed to encode image"
        | ImgFormat.png =>
          match env.encodePng outImg with
          | some bytes => Except.ok bytes
          | none => Except.error "failed to encode image"
        | ImgFormat.other nm => Except.error ("unsupported image format: " ++ nm)
      else Except.error "failed to create output file"

/-- The pure resize-and-re-encode path, written from the spec's words for
Scenario B: decode, downscale if over the pixel budget, create and encode in
the original format — with no watermark step at all. -/
def resizeEncodePath (env : TransformEnv) (maxPx : Nat) : Except String (List Nat) :=
  if !env.openOk then Except.error "failed to open image"
  else
  match env.decode with
  | none => Except.error "failed to decode image"
  | some (img, format) =>
    let totalPixels := img.width * img.height
    let newImg :=
      if totalPixels > maxPx then
        env.resizeFn (img.width * maxPx / totalPixels)
          (img.height * maxPx / totalPixels) img
      else img
    if env.createOk then
      match format with
      | ImgFormat.jpeg =>
        match env.encodeJpeg newImg with
        | some bytes => Except.ok bytes
        | none => Except.error "failed to encode image"
      | ImgFormat.png =>
        match env.encodePng newImg with
        | some bytes => Except.ok bytes
        | none => Except.error "failed to encode image"
      | ImgFormat.other nm => Except.error ("unsupported image format: " ++ nm)
    else Except.error "failed to create output file"

/-- The byte size of a transform result (0 for an error, which writes no
complete output). -/
def outputSize : Except String (List Nat) → Nat
  | Except.ok bytes => bytes.length
  | Except.error _ => 0

/-- A concrete oracle assignment: a 4000×4000 jpeg whose resize oracle records
the requested dimensions and whose jpeg encoder dumps them. -/
def demoEnv : TransformEnv :=
  { openOk := true,
    decode := some (⟨4000, 4000, 7⟩, ImgFormat.jpeg),
    resizeFn := fun w h img => ⟨w, h, img.content⟩,
    watermarkFn := fun img _ _ => some img,
    createOk := true,
    encodeJpeg := fun img => some [img.width, img.height, img.content],
    encodePng := fun _ => some [] }

/-! ## Theorems -/

theorem share_eq_drop_take (items : List α) (n i : Nat) :
    share items n i =
      (items.drop (i * chunkSize n items.length)).take (chunkSize n items.length) := by
  unfold share shareEnd
  rw [List.drop_take]
  rcases Nat.le_total (i * chunkSize n items.length + chunkSize n items.length)
      items.length with h | h
  · rw [min_eq_left h, Nat.add_sub_cancel_left]
  · rw [min_eq_right h]
    rcases Nat.le_total (i * chunkSize n items.length) items.length with h2 | h2
    · apply List.take_eq_take.mpr
      rw [List.length_drop]
      omega
    · rw [List.drop_eq_nil_of_le h2, List.take_nil, List.take_nil]

theorem share_length (items : List α) (n i : Nat) :
    (share items n i).length =
      min (chunkSize n items.length) (items.length - i * chunkSize n items.length) := by
  rw [share_eq_drop_take, List.length_take, List.length_drop]

/-- Concatenating the first `m` shares yields the first `m * chunkSize` items. -/
theorem shares_concat_take (items : List α) (n : Nat) :
    ∀ m, ((List.range m).map (share items n)).flatten =
      items.take (m * chunkSize n items.length) := by
  intro m
  induction m with
  | zero => simp
  | succ m ih =>
    rw [List.range_succ, List.map_append, List.flatten_append, ih]
    simp only [List.map_cons, List.map_nil, List.flatten_cons, List.flatten_nil,
      List.append_nil]
    rw [share_eq_drop_take, ← List.take_add, Nat.succ_mul]

/-- For `n > 0`, `n * chunkSize n len ≥ len`: the shares cover everything. -/
theorem chunkSize_covers (n len : Nat) (hn : 0 < n) : len ≤ n * chunkSize n len := by
  unfold chunkSize
  have hdm := Nat.div_add_mod (len + n - 1) n
  have hlt := Nat.mod_lt (len + n - 1) hn
  omega

theorem shares_concat (items : List α) (n : Nat) (hn : 0 < n) :
    ((List.range n).map (share items n)).flatten = items := by
  rw [shares_concat_take, List.take_of_length_le]
  exact chunkSize_covers n items.length hn

/-- C2 counterexample: for 10 items and 4 workers the ceil-division rule yields
share sizes 3, 3, 3, 1, so two shares differ by 2 — the "sizes of any two
shares differ by at most 1" part of the claim is false on the code. -/
theorem C2_counterexample :
    ((List.range 4).map (fun i => (share (List.range 10) 4 i).length)) = [3, 3, 3, 1] ∧
      ¬ sharesBalanced (List.range 10) 4 := by
  constructor
  · rfl
  · decide

/-- C2 (amended): for every item list and `workerCount > 0`, the concatenation
of the shares in worker-index order equals the input list (each item exactly
once), and share `i` has exactly `min chunkSize (len - i * chunkSize)` items —
so every share before the last nonempty one has exactly `chunkSize` items and
only the last nonempty share may be smaller, by up to `chunkSize - 1` (not 1). -/
theorem C2_partition_amended (items : List α) (n : Nat) (hn : 0 < n) :
    ((List.range n).map (share items n)).flatten = items ∧
      ∀ i, (share items n i).length =
        min (chunkSize n items.length) (items.length - i * chunkSize n items.length) :=
  ⟨shares_concat items n hn, fun i => share_length items n i⟩

theorem C2_partition_amended_witness :
    0 < 4 ∧
      (((List.range 4).map (share (List.range 10) 4)).flatten = List.range 10 ∧
        ∀ i, (share (List.range 10) 4 i).length =
          min (chunkSize 4 10) (10 - i * chunkSize 4 10)) := by
  refine ⟨by decide, ?_⟩
  have h := C2_partition_amended (List.range 10) 4 (by decide)
  simpa using h

/-! ## Worker launch guard (C6, main.go lines 357-373) -/

/-- A worker index whose start is at or past its end gets the empty slice. -/
theorem share_eq_nil_of_start_ge (items : List α) (n i : Nat)
    (h : shareEnd items n i ≤ i * chunkSize n items.length) :
    share items n i = [] := by
  unfold share
  apply List.drop_eq_nil_of_le
  rw [List.length_take]
  omega

theorem trailing_start_ge (items : List α) (n i : Nat)
    (hlen : items.length < n) (hi : items.length ≤ i) :
    shareEnd items n i ≤ i * chunkSize n items.length := by
  unfold shareEnd chunkSize
  rcases Nat.eq_zero_or_pos items.length with h0 | h1
  · have hq : (items.length + n - 1) / n = 0 := Nat.div_eq_of_lt (by omega)
    rw [hq]
    omega
  · have hq1 : 1 ≤ (items.length + n - 1) / n :=
      (Nat.one_le_div_iff (by omega)).mpr (by omega)
    have hq2 : (items.length + n - 1) / n < 2 := Nat.div_lt_of_lt_mul (by omega)
    have hq : (items.length + n - 1) / n = 1 := by omega
    rw [hq]
    omega

/-- C6: a worker whose computed start index is not below its end index receives
the empty share and is not launched; in particular, when `workerCount` exceeds
the number of items, every trailing worker index `i ≥ len(items)` has
`start ≥ end`, is not launched, and receives no share. -/
theorem C6_empty_shares_not_launched (items : List α) (n i : Nat) :
    (¬ i * chunkSize n items.length < shareEnd items n i →
        launched items n i = false ∧ share items n i = []) ∧
      (items.length < n → items.length ≤ i →
        launched items n i = false ∧ share items n i = []) := by
  have hempty : ¬ i * chunkSize n items.length < shareEnd items n i →
      launched items n i = false ∧ share items n i = [] := by
    intro h
    exact ⟨by simp only [launched, decide_eq_false_iff_not]; omega,
      share_eq_nil_of_start_ge items n i (by omega)⟩
  exact ⟨hempty, fun hlen hi =>
    hempty (by have := trailing_start_ge items n i hlen hi; omega)⟩

theorem C6_empty_shares_not_launched_witness :
    (launched (List.range 3) 10 5 = false ∧ share (List.range 3) 10 5 = []) ∧
      (launched (List.range 3) 10 5 = false ∧ share (List.range 3) 10 5 = []) :=
  ⟨(C6_empty_shares_not_launched (List.range 3) 10 5).1 (by decide),
   (C6_empty_shares_not_launched (List.range 3) 10 5).2 (by decide) (by decide)⟩

theorem itemSucceeds_records {item : ItemEnv} (h : itemSucceeds item = true) :
    recordsOutcome item = true := by
  rcases item with ⟨p, stat, cerr, ostat⟩
  rcases stat with _ | info
  · simp [itemSucceeds] at h
  · cases hf : (!info.isDir && hasAcceptedExt info.name) <;>
      simp_all [itemSucceeds, recordsOutcome]

theorem processItem_eq (inputDir : String) (s : RunState) (item : ItemEnv) :
    processItem inputDir s item =
      { compressedTotalSize := s.compressedTotalSize + itemBytes item,
        failedFiles := s.failedFiles ++
          (if itemFails item then [relativePathOf item.path inputDir] else []),
        progress := s.progress + (if itemSucceeds item then 1 else 0),
        outcomes := s.outcomes ++ itemOutcomes inputDir item } := by
  rcases item with ⟨p, stat, cerr, ostat⟩
  rcases stat with _ | ⟨d, nm, sz⟩
  · simp [processItem, itemBytes, itemSucceeds, itemFails, recordsOutcome, itemOutcomes]
  · rcases cerr with _ | msg
    · rcases ostat with _ | osz <;>
        by_cases hf : (!d && hasAcceptedExt nm) = true <;>
          simp [processItem, itemBytes, itemSucceeds, itemFails, recordsOutcome,
            itemOutcomes, hf, Option.getD]
    · by_cases hf : (!d && hasAcceptedExt nm) = true <;>
        simp [processItem, itemBytes, itemSucceeds, itemFails, recordsOutcome,
          itemOutcomes, hf]

/-- Full characterization of one worker's sequential run as a fold. -/
theorem foldl_processItem_spec (inputDir : String) :
    ∀ (files : List ItemEnv) (s : RunState),
      (files.foldl (processItem inputDir) s).compressedTotalSize
          = s.compressedTotalSize + (files.map itemBytes).sum ∧
        (files.foldl (processItem inputDir) s).failedFiles
          = s.failedFiles ++ (files.filter itemFails).map
              (fun it => relativePathOf it.path inputDir) ∧
        (files.foldl (processItem inputDir) s).progress
          = s.progress + files.countP (fun it => itemSucceeds it) ∧
        (files.foldl (processItem inputDir) s).outcomes
          = s.outcomes ++ ((files.map (itemOutcomes inputDir)).flatten) := by
  intro files
  induction files with
  | nil => intro s; simp
  | cons f fs ih =>
    intro s
    rw [List.foldl_cons, processItem_eq]
    obtain ⟨h1, h2, h3, h4⟩ := ih _
    refine ⟨?_, ?_, ?_, ?_⟩
    · rw [h1]; simp; ring
    · rw [h2]
      by_cases hf : itemFails f = true <;> simp [List.filter_cons, hf]
    · rw [h3]
      by_cases hs : itemSucceeds f = true <;>
        (simp [List.countP_cons, hs]; try omega)
    · rw [h4]; simp

/-- With positive batch size and enough fuel, the batched loop is the plain
item-by-item fold. -/
theorem batchLoop_eq_foldl (inputDir : String) (k : Nat) (hk : 0 < k) :
    ∀ (fuel : Nat) (files : List ItemEnv) (s : RunState), files.length ≤ fuel →
      batchLoop inputDir k fuel files s = files.foldl (processItem inputDir) s := by
  intro fuel
  induction fuel with
  | zero =>
    intro files s h
    have : files = [] := List.eq_nil_of_length_eq_zero (Nat.le_zero.mp h)
    subst this
    rfl
  | succ fuel ih =>
    intro files s h
    cases files with
    | nil => rfl
    | cons f fs =>
      show batchLoop inputDir k fuel ((f :: fs).drop k)
          (processBatch inputDir s ((f :: fs).take k))
        = (f :: fs).foldl (processItem inputDir) s
      rw [ih ((f :: fs).drop k) _ (by simp only [List.length_drop]; simp at h ⊢; omega)]
      rw [processBatch, ← List.foldl_append, List.take_append_drop]

theorem compressImages_eq_foldl (inputDir : String) (files : List ItemEnv)
    (s : RunState) :
    compressImages inputDir files s = (files.foldl (processItem inputDir) s, none) := by
  unfold compressImages processBatched
  cases files with
  | nil => rfl
  | cons f fs =>
    have hk : 0 < if (f :: fs).length < goBatchSize then (f :: fs).length
        else goBatchSize := by
      simp only [List.length_cons, goBatchSize]
      split <;> omega
    show (batchLoop inputDir _ (f :: fs).length (f :: fs) s, none) = _
    rw [batchLoop_eq_foldl inputDir _ hk _ _ _ (Nat.le_refl _)]

/-- C9: for every positive batch size, processing a share in contiguous
sub-batches of that size yields exactly the same final state — same
`compressedTotalSize`, same `failedFiles`, same progress count, and the same
recorded Outcome sequence — as processing the share item by item in order. -/
theorem C9_batching_invisible (inputDir : String) (k : Nat) (files : List ItemEnv)
    (s : RunState) (hk : 0 < k) :
    processBatched inputDir k files s = files.foldl (processItem inputDir) s :=
  batchLoop_eq_foldl inputDir k hk files.length files s (Nat.le_refl _)

theorem C9_batching_invisible_witness :
    0 < 2 ∧ processBatched "/in" 2 demoFiles RunState.initial
      = demoFiles.foldl (processItem "/in") RunState.initial :=
  ⟨by decide, C9_batching_invisible "/in" 2 demoFiles RunState.initial (by decide)⟩

theorem countP_fails_add_succeeds (files : List ItemEnv) :
    files.countP (fun it => itemFails it) + files.countP (fun it => itemSucceeds it)
      = files.countP (fun it => recordsOutcome it) := by
  induction files with
  | nil => rfl
  | cons f fs ih =>
    simp only [List.countP_cons]
    by_cases hs : itemSucceeds f = true
    · have hr := itemSucceeds_records hs
      have hfail : itemFails f = false := by simp [itemFails, hs]
      simp [hs, hr, hfail]
      omega
    · have hs' := eq_false_of_ne_true hs
      have hfail : itemFails f = recordsOutcome f := by simp [itemFails, hs']
      by_cases hr : recordsOutcome f = true
      · simp [hs', hr, hfail]
        omega
      · simp [hs', eq_false_of_ne_true hr, hfail]
        omega

/-- Each item records as many ghost Outcomes as record-events the code
performs for it: one if it succeeds or fails, none if it is filtered out. -/
theorem flatten_outcomes_length (inputDir : String) (files : List ItemEnv) :
    ((files.map (itemOutcomes inputDir)).flatten).length
      = files.countP (fun it => itemFails it)
          + files.countP (fun it => itemSucceeds it) := by
  induction files with
  | nil => rfl
  | cons f fs ih =>
    simp only [List.map_cons, List.flatten_cons, List.length_append, List.countP_cons, ih]
    by_cases hs : itemSucceeds f = true
    · have hfail : itemFails f = false := by simp [itemFails, hs]
      simp [itemOutcomes, hs, hfail]
      omega
    · by_cases hf : itemFails f = true
      · simp [itemOutcomes, eq_false_of_ne_true hs, hf]
        omega
      · simp [itemOutcomes, eq_false_of_ne_true hs, eq_false_of_ne_true hf]

/-- C1 counterexample: on a one-item list whose item stats successfully but
fails the extension filter, the batch runner records zero failures and zero
successes, so `len(failedFiles) + successCount ≠ len(items)` — the claim as
stated is false on the code. -/
theorem C1_counterexample :
    (compressImages "/in" [skippedItem] RunState.initial).1.failedFiles.length
        + (compressImages "/in" [skippedItem] RunState.initial).1.progress
      ≠ [skippedItem].length := by
  decide

/-- C1 (amended): the batch runner records exactly one Outcome for every
WorkItem that either fails stat or passes the directory/extension filter, and
none for items that stat successfully but fail the filter; hence
`len(failedFiles) + successCount` equals the number of outcome-recording
WorkItems (which is the total number whenever every item records). -/
theorem C1_outcome_accounting (inputDir : String) (files : List ItemEnv) :
    (compressImages inputDir files RunState.initial).1.failedFiles.length
          + (compressImages inputDir files RunState.initial).1.progress
        = files.countP (fun it => recordsOutcome it) ∧
      (compressImages inputDir files RunState.initial).1.outcomes.length
        = files.countP (fun it => recordsOutcome it) := by
  rw [compressImages_eq_foldl]
  obtain ⟨h1, h2, h3, h4⟩ := foldl_processItem_spec inputDir files RunState.initial
  constructor
  · show (files.foldl (processItem inputDir) RunState.initial).failedFiles.length
        + (files.foldl (processItem inputDir) RunState.initial).progress = _
    rw [h2, h3]
    simp only [RunState.initial, List.nil_append, List.length_map,
      ← List.countP_eq_length_filter, Nat.zero_add]
    exact countP_fails_add_succeeds files
  · show (files.foldl (processItem inputDir) RunState.initial).outcomes.length = _
    rw [h4]
    simp only [RunState.initial, List.nil_append]
    rw [flatten_outcomes_length, countP_fails_add_succeeds]

/-- C5: per-file errors are contained in the batch runner: the function always
returns a `nil` error (never raises), the items appended to `failedFiles` are
exactly the erroring items' relative paths in share order, and progress is
advanced only for successful items (never for a failed one). -/
theorem C5_errors_contained (inputDir : String) (files : List ItemEnv) :
    (compressImages inputDir files RunState.initial).2 = none ∧
      (compressImages inputDir files RunState.initial).1.failedFiles
        = (files.filter (fun it => itemFails it)).map
            (fun it => relativePathOf it.path inputDir) ∧
      (compressImages inputDir files RunState.initial).1.progress
        = files.countP (fun it => itemSucceeds it) := by
  rw [compressImages_eq_foldl]
  obtain ⟨h1, h2, h3, h4⟩ := foldl_processItem_spec inputDir files RunState.initial
  refine ⟨rfl, ?_, ?_⟩
  · show (files.foldl (processItem inputDir) RunState.initial).failedFiles = _
    rw [h2]
    simp [RunState.initial]
  · show (files.foldl (processItem inputDir) RunState.initial).progress = _
    rw [h3]
    simp [RunState.initial]

theorem sum_itemBytes (files : List ItemEnv) :
    (files.map itemBytes).sum
      = ((files.filter (fun it => itemSucceeds it && it.outStat.isSome)).map
          (fun it => it.outStat.getD 0)).sum := by
  induction files with
  | nil => rfl
  | cons f fs ih =>
    by_cases hs : itemSucceeds f = true
    · rcases ho : f.outStat with _ | sz
      · simp [itemBytes, hs, ho, ih]
      · simp [itemBytes, hs, ho, ih]
    · simp [itemBytes, eq_false_of_ne_true hs, ih]

/-- C10: `compressedTotalSize` is exactly the sum of output-stat sizes over the
successful items whose post-write stat succeeded; a successful item whose
output stat fails contributes 0 bytes, yet it is still counted as a success
and advances progress (progress counts all successes, ignoring the output
stat). -/
theorem C10_totalBytes_only_statted (inputDir : String) (files : List ItemEnv) :
    (compressImages inputDir files RunState.initial).1.compressedTotalSize
        = ((files.filter (fun it => itemSucceeds it && it.outStat.isSome)).map
            (fun it => it.outStat.getD 0)).sum ∧
      (compressImages inputDir files RunState.initial).1.progress
        = files.countP (fun it => itemSucceeds it) ∧
      ∀ it : ItemEnv, itemSucceeds it = true → it.outStat = none →
        itemBytes it = 0 := by
  rw [compressImages_eq_foldl]
  obtain ⟨h1, h2, h3, h4⟩ := foldl_processItem_spec inputDir files RunState.initial
  refine ⟨?_, ?_, ?_⟩
  · show (files.foldl (processItem inputDir) RunState.initial).compressedTotalSize = _
    rw [h1]
    simp only [RunState.initial, zero_add]
    exact sum_itemBytes files
  · show (files.foldl (processItem inputDir) RunState.initial).progress = _
    rw [h3]
    simp [RunState.initial]
  · intro it hs ho
    simp [itemBytes, hs, ho]

/-- Any interleaving is a permutation of the concatenation of the workers'
operation sequences. -/
theorem mergeOf_perm_flatten {ws : List (List AggOp)} {trace : List AggOp}
    (h : MergeOf ws trace) : List.Perm trace ws.flatten := by
  induction h with
  | nil ws hall =>
    have hnil : ws.flatten = [] := by
      induction ws with
      | nil => rfl
      | cons w ws ih =>
        simp only [List.mem_cons, forall_eq_or_imp] at hall
        simp [hall.1, ih hall.2]
    rw [hnil]
  | step ws i op rest trace hget hmerge ih =>
    obtain ⟨hi, hgetel⟩ := List.getElem?_eq_some.mp hget
    apply List.Perm.trans (List.Perm.cons op ih)
    rw [List.set_eq_take_cons_drop rest hi]
    conv_rhs => rw [← List.take_append_drop i ws, List.drop_eq_getElem_cons hi, hgetel]
    simp only [List.flatten_append, List.flatten_cons, List.cons_append,
      List.append_assoc]
    exact List.perm_middle.symm

/-- Executing a trace adds the trace's bytes to the total and appends the
trace's failure paths in trace order. -/
theorem runTrace_spec : ∀ (ops : List AggOp) (s : AggState),
    (runTrace s ops).totalBytesWritten = s.totalBytesWritten + (ops.map opBytes).sum ∧
      (runTrace s ops).failedFiles = s.failedFiles ++ (ops.map opFailures).flatten := by
  intro ops
  induction ops with
  | nil => intro s; simp [runTrace]
  | cons op rest ih =>
    intro s
    obtain ⟨h1, h2⟩ := ih (applyOp s op)
    refine ⟨?_, ?_⟩
    · show (runTrace (applyOp s op) rest).totalBytesWritten = _
      rw [h1]
      cases op <;> (simp [applyOp, opBytes]; try ring)
    · show (runTrace (applyOp s op) rest).failedFiles = _
      rw [h2]
      cases op <;> simp [applyOp, opFailures]

/-- Summing bytes over the concatenated sequences equals summing per worker. -/
theorem flatten_workerBytes (ws : List (List AggOp)) :
    (ws.flatten.map opBytes).sum = (ws.map workerBytes).sum := by
  induction ws with
  | nil => rfl
  | cons w ws ih =>
    simp only [List.flatten_cons, List.map_append, List.sum_append, List.map_cons,
      List.sum_cons, workerBytes, ih]

theorem flatten_workerFailures (ws : List (List AggOp)) :
    (ws.flatten.map opFailures).flatten = (ws.map workerFailures).flatten := by
  induction ws with
  | nil => rfl
  | cons w ws ih =>
    simp only [List.flatten_cons, List.map_append, List.flatten_append, List.map_cons,
      workerFailures, ih]

/-- C3: for every family of worker operation sequences and every
lock-serialized interleaving of them, the final `totalBytesWritten` is exactly
the sum of all recorded byte counts, and `failedFiles` is a permutation of the
concatenation of the workers' failure lists — each failed path appears exactly
as many times as it was recorded, and no update is lost. -/
theorem C3_no_lost_updates (ws : List (List AggOp)) (trace : List AggOp)
    (h : MergeOf ws trace) :
    (runTrace AggState.initial trace).totalBytesWritten = (ws.map workerBytes).sum ∧
      List.Perm (runTrace AggState.initial trace).failedFiles
        ((ws.map workerFailures).flatten) := by
  obtain ⟨h1, h2⟩ := runTrace_spec trace AggState.initial
  have hperm := mergeOf_perm_flatten h
  constructor
  · rw [h1]
    show 0 + (trace.map opBytes).sum = _
    rw [zero_add, (hperm.map opBytes).sum_eq]
    exact flatten_workerBytes ws
  · rw [h2]
    show List.Perm ([] ++ (trace.map opFailures).flatten) _
    rw [List.nil_append, ← flatten_workerFailures ws]
    exact (hperm.map opFailures).flatten

theorem C3_no_lost_updates_witness :
    (runTrace AggState.initial demoTrace).totalBytesWritten
        = (demoWorkers.map workerBytes).sum ∧
      List.Perm (runTrace AggState.initial demoTrace).failedFiles
        ((demoWorkers.map workerFailures).flatten) :=
  C3_no_lost_updates demoWorkers demoTrace
    (by
      refine MergeOf.step _ 0 _ _ _ rfl ?_
      refine MergeOf.step _ 1 _ _ _ rfl ?_
      refine MergeOf.step _ 1 _ _ _ rfl ?_
      refine MergeOf.step _ 0 _ _ _ rfl ?_
      exact MergeOf.nil _ (by decide))

/-- C4 evaluation at the spec's own Scenario A input: a 4000×4000 image with
`maxPixels = 12000000` is resized to 3000×3000 (9.0 MP), because the code's
scale factor is `maxPixels/totalPixels = 0.75` with no square root; the
claim's factor `sqrt(maxPixels/totalPixels) ≈ 0.866` would give 3464×3464
(3464 is the largest integer whose square is within the 12 MP budget). -/
theorem C4_missing_sqrt_eval :
    newDims 4000 4000 12000000 = (3000, 3000) ∧
      3464 * 3464 ≤ 12000000 ∧ 12000000 < 3465 * 3465 := by
  decide

/-- C7: with empty watermark text, `compressImage` never consults the
watermark oracle (so the font resource is never read) — its result is
invariant under replacing that oracle — and it equals the pure
resize-and-re-encode path. -/
theorem C7_empty_watermark_pure_resize (env : TransformEnv) (maxPx : Nat)
    (fontPath : String) (wmFn : Img → String → String → Option Img) :
    compressImage { env with watermarkFn := wmFn } maxPx "" fontPath
        = compressImage env maxPx "" fontPath ∧
      compressImage env maxPx "" fontPath = resizeEncodePath env maxPx := by
  constructor
  · rcases env with ⟨opn, dec, rsz, wm, cr, ej, ep⟩
    cases opn
    · rfl
    · rcases dec with _ | ⟨img, format⟩
      · rfl
      · rfl
  · rcases env with ⟨opn, dec, rsz, wm, cr, ej, ep⟩
    cases opn
    · rfl
    · rcases dec with _ | ⟨img, format⟩
      · rfl
      · rfl

/-- C8: the transform is a deterministic function of its oracles and
configuration — two runs on the same input produce identical results, and in
particular outputs of equal byte size. -/
theorem C8_transform_deterministic (env : TransformEnv) (maxPx : Nat)
    (watermarkText fontPath : String) (out1 out2 : Except String (List Nat))
    (h1 : compressImage env maxPx watermarkText fontPath = out1)
    (h2 : compressImage env maxPx watermarkText fontPath = out2) :
    out1 = out2 ∧ outputSize out1 = outputSize out2 := by
  subst h1
  subst h2
  exact ⟨rfl, rfl⟩

theorem C8_transform_deterministic_witness :
    (Except.ok [3000, 3000, 7] : Except String (List Nat)) = Except.ok [3000, 3000, 7] ∧
      outputSize (Except.ok [3000, 3000, 7]) = outputSize (Except.ok [3000, 3000, 7]) :=
  C8_transform_deterministic demoEnv 12000000 "wm" "font.ttf" _ _ rfl rfl

end ImageCompressor
